import Mathlib

/-!
Verification of the resume-parsing extraction pipeline.

This file is a shallow embedding of the three-stage pipeline
(structural reader output → table normalizer → field cleaner) found in
src/read_docx.py, src/extract_tables.py and src/clean_table_dicts.py.
Cell text is modelled as a list of characters; Python dictionaries with
a fixed key set are modelled as association lists; the single regular
expression in the source (extract_inline_value) is modelled by an
explicit leftmost-search matcher with the same backtracking semantics.
-/

set_option maxRecDepth 10000

/-- Cell text is a list of characters (Python str). -/
abbrev Text := List Char

/-- Coerce a Lean string literal to the Text representation. -/
def toT (s : String) : Text := s.data

/-- Model of Python whitespace (str.isspace and the regex class \s),
restricted to the whitespace characters that can occur in this corpus:
ASCII whitespace, NBSP, LINE/PARA separator and the ideographic space. -/
def pyIsSpace (ch : Char) : Bool :=
  ch = ' ' ∨ ch = '\t' ∨ ch = '\n' ∨ ch = '\r' ∨ ch = '\x0b' ∨ ch = '\x0c' ∨
  ch = ' ' ∨ ch = ' ' ∨ ch = ' ' ∨ ch = '　'

/-- Python str.strip(): remove leading and trailing whitespace. -/
def pyStrip (l : Text) : Text :=
  ((l.dropWhile pyIsSpace).reverse.dropWhile pyIsSpace).reverse

/-- Collapse runs of spaces to a single space (helper for normalize_text). -/
def squeezeSpaces : Text → Text
  | [] => []
  | [c] => [c]
  | a :: b :: rest =>
    if a = ' ' ∧ b = ' ' then squeezeSpaces (b :: rest)
    else a :: squeezeSpaces (b :: rest)

/-- clean_table_dicts.normalize_text: re.sub(r"[\r\n\s]+", " ", value).strip().
The regex replaces each maximal whitespace run by one space; this is modelled
by mapping every whitespace character to a space and collapsing space runs. -/
def normalize_text (value : Text) : Text :=
  if value = [] then []
  else pyStrip (squeezeSpaces (value.map (fun ch => if pyIsSpace ch then ' ' else ch)))

/-- clean_table_dicts.CHECKED_CHARS. -/
def CHECKED_CHARS : List Char := toT "☑☒✓✔√■●▣◆▲"

/-- clean_table_dicts.UNCHECKED_CHARS. -/
def UNCHECKED_CHARS : List Char := toT "☐□▢◻"

/-- clean_table_dicts.LABEL_KEYWORDS. -/
def LABEL_KEYWORDS : List Text :=
  [toT "服从调剂", toT "服从分配", toT "调剂", toT "分配"]

/-- clean_table_dicts.FIELD_KEYWORDS: the canonical field table. -/
def FIELD_KEYWORDS : List (String × List Text) :=
  [ ("姓名", [toT "姓名"]),
    ("性别", [toT "性别"]),
    ("出生年月", [toT "出生年月", toT "出生"]),
    ("政治面貌", [toT "政治面貌"]),
    ("所在分院", [toT "所在分院", toT "分院"]),
    ("班级", [toT "班级"]),
    ("学号", [toT "学号"]),
    ("现（曾） 任职务", [toT "现任职务", toT "曾任职", toT "任职", toT "现任", toT "曾任"]),
    ("第一志愿", [toT "第一志愿"]),
    ("第二志愿", [toT "第二志愿"]),
    ("联系方式", [toT "联系方式", toT "联系电话", toT "手机", toT "电话", toT "手机号"]),
    ("微信", [toT "微信"]),
    ("何时何地曾担任何职务", [toT "何时何地曾担任何职务", toT "何时何地"]),
    ("曾获奖项及获奖时间", [toT "曾获奖项", toT "曾获", toT "奖项", toT "获奖"]),
    ("个人优势分析及简要工作设想", [toT "个人优势", toT "工作设想", toT "优势分析"]),
    ("服从分配", [toT "服从分配", toT "服从调剂"]) ]

/-- clean_table_dicts.ALL_LABEL_KEYWORDS: every keyword variant of every
field, spaces removed, in declaration order. -/
def ALL_LABEL_KEYWORDS : List Text :=
  (FIELD_KEYWORDS.flatMap Prod.snd).map (fun kw => kw.filter (fun ch => ch != ' '))

/-- Python substring test `needle in hay`: needle occurs contiguously in hay. -/
def textInfix (needle : Text) : Text → Bool
  | [] => needle.isEmpty
  | c :: rest => needle.isPrefixOf (c :: rest) || textInfix needle rest

/-- clean_table_dicts.LABEL_PREFIX_CHARS (the order of the glyph characters is
irrelevant: the string is only ever used as a character set). -/
def LABEL_PREFIX_CHARS : List Char :=
  CHECKED_CHARS ++ UNCHECKED_CHARS ++ toT ":：-—_/.,()[]（）·•"

/-- clean_table_dicts.LABEL_SUFFIX_CHARS. -/
def LABEL_SUFFIX_CHARS : List Char := toT ":：-—_/.,()[]（）·•"

/-- The literal strings treated as checked answers in is_checked_text. -/
def checkedLiterals : List Text :=
  [toT "是", toT "同意", toT "接受", toT "✔", toT "☑", toT "√", toT "✓"]

/-- The literal strings treated as declined answers in is_checked_text. -/
def uncheckedLiterals : List Text :=
  [toT "否", toT "不同意", toT "不接受"]

/-- The secondary "filled marker" characters tested at the end of
is_checked_text. -/
def filledMarkers : List Char := toT "■●▣◆"

/-- The first glyph decision of is_checked_text: scan the characters in
order; the first one lying in CHECKED_CHARS decides checked, the first one
lying in UNCHECKED_CHARS decides unchecked. -/
def glyphScan : Text → Option Bool
  | [] => none
  | c :: rest =>
    if c ∈ CHECKED_CHARS then some true
    else if c ∈ UNCHECKED_CHARS then some false
    else glyphScan rest

/-- Model of Python str.isalnum restricted to the character ranges relevant
here: ASCII alphanumerics and the CJK unified ideograph block (which Python
classifies as alphabetic). -/
def pyIsAlnum (ch : Char) : Bool :=
  ch.isAlphanum ∨ ('一' ≤ ch ∧ ch ≤ '鿿')

/-- clean_table_dicts.is_checked_text. -/
def is_checked_text (text : Text) : Bool :=
  if text = [] then false
  else
    let t := pyStrip text
    let is_label_text := LABEL_KEYWORDS.any (fun k => textInfix k t)
    match glyphScan t with
    | some b => b
    | none =>
      if t.length ≤ 3 ∧ t ∈ checkedLiterals then true
      else if t.length ≤ 3 ∧ t ∈ uncheckedLiterals then false
      else if is_label_text then false
      else
        let non_alnum := t.countP
          (fun ch => !(pyIsAlnum ch) && !(pyIsSpace ch) &&
                     decide ('一' ≤ ch) && decide (ch ≤ '鿿'))
        if 1 ≤ non_alnum ∧ t.length ≤ 4 ∧ filledMarkers.any (fun ch => t.contains ch)
        then true else false

/-- Variant of is_checked_text with the secondary filled-marker tier removed,
used to compare the code against the spec's description of that tier. -/
def is_checked_text_primary (text : Text) : Bool :=
  if text = [] then false
  else
    let t := pyStrip text
    let is_label_text := LABEL_KEYWORDS.any (fun k => textInfix k t)
    match glyphScan t with
    | some b => b
    | none =>
      if t.length ≤ 3 ∧ t ∈ checkedLiterals then true
      else if t.length ≤ 3 ∧ t ∈ uncheckedLiterals then false
      else if is_label_text then false
      else false

/-- clean_table_dicts.interpret_checkbox. -/
def interpret_checkbox (text : Text) : Text :=
  if is_checked_text text then toT "是"
  else if UNCHECKED_CHARS.any (fun ch => text.contains ch) then toT "否"
  else []

/-- The allowed-keyword skip test in contains_label_keyword:
`allowed_keywords and any(keyword == kw.replace(" ", "") ...)`. -/
def allowedSkip (allowed : Option (List Text)) (kw : Text) : Bool :=
  match allowed with
  | none => false
  | some aks => !aks.isEmpty && aks.any (fun a => a.filter (fun ch => ch != ' ') == kw)

/-- The keyword loop of contains_label_keyword. -/
def labelKwLoop (trimmed : Text) (allowed : Option (List Text)) : List Text → Bool
  | [] => false
  | kw :: rest =>
    if allowedSkip allowed kw then labelKwLoop trimmed allowed rest
    else if kw.isPrefixOf trimmed then
      let remainder := trimmed.drop kw.length
      if remainder = [] then true
      else if remainder.all (fun ch => LABEL_SUFFIX_CHARS.contains ch) then true
      else labelKwLoop trimmed allowed rest
    else labelKwLoop trimmed allowed rest

/-- clean_table_dicts.contains_label_keyword. -/
def contains_label_keyword (text : Text) (allowed : Option (List Text)) : Bool :=
  let normalized := text.filter (fun ch => ch != ' ')
  let trimmed := normalized.dropWhile (fun ch => LABEL_PREFIX_CHARS.contains ch)
  if trimmed = [] then false
  else labelKwLoop trimmed allowed ALL_LABEL_KEYWORDS

/-- The keyword loop of match_field. -/
def matchFieldLoop (normalized : Text) : List Text → Text
  | [] => []
  | kw :: rest =>
    if textInfix (kw.filter (fun ch => ch != ' ')) normalized then kw
    else matchFieldLoop normalized rest

/-- clean_table_dicts.match_field: the first keyword variant (spaces removed)
that is a substring of the cell text (spaces removed); returns the keyword
as declared, or the empty string when none matches. -/
def match_field (value : Text) (keywords : List Text) : Text :=
  matchFieldLoop (value.filter (fun ch => ch != ' ')) keywords

/-- Backtracking for the trailing `\s*(.+)` of the inline-value regex: try
consuming k whitespace characters, then `.+` must match at least one
non-newline character; on failure retry with k-1. -/
def tryBacktrack (rest3 : Text) : Nat → Option Text
  | 0 =>
    match rest3 with
    | c :: _ => if c = '\n' then none else some (rest3.takeWhile (fun ch => ch != '\n'))
    | [] => none
  | k + 1 =>
    match rest3.drop (k + 1) with
    | c :: _ =>
      if c = '\n' then tryBacktrack rest3 k
      else some ((rest3.drop (k + 1)).takeWhile (fun ch => ch != '\n'))
    | [] => tryBacktrack rest3 k

/-- Match `\s*(.+)` against rest3 and return the capture group: the greedy
`\s*` starts at the maximal whitespace run and backtracks. -/
def starDotPlusGroup (rest3 : Text) : Option Text :=
  tryBacktrack rest3 (rest3.takeWhile pyIsSpace).length

/-- Match the pattern `kw\s*[:：]\s*(.+)` at the start of text and return the
capture group. The `\s*` before the colon is deterministic because a colon is
not whitespace. -/
def inlineMatchAt (text kw : Text) : Option Text :=
  if kw.isPrefixOf text then
    match (text.drop kw.length).dropWhile pyIsSpace with
    | c :: rest3 => if c = ':' ∨ c = '：' then starDotPlusGroup rest3 else none
    | [] => none
  else none

/-- The leftmost-search loop of re.search: try each start position in order. -/
def inlineSearch (kw : Text) : Text → Option Text
  | [] =>
    match inlineMatchAt [] kw with
    | some g => some (pyStrip g)
    | none => none
  | c :: rest =>
    match inlineMatchAt (c :: rest) kw with
    | some g => some (pyStrip g)
    | none => inlineSearch kw rest

/-- clean_table_dicts.extract_inline_value: search for
`keyword\s*[:：]\s*(.+)` and return the stripped capture group. -/
def extract_inline_value (text keyword : Text) : Option Text :=
  inlineSearch keyword text

/-- The candidate loop shared by both scans of infer_value_from_adjacent:
the first cell whose normalized text is non-empty and not a bare label. -/
def scanCandidates (allowed : Option (List Text)) : List Text → Text
  | [] => []
  | cell :: rest =>
    let candidate := normalize_text cell
    if candidate ≠ [] ∧ contains_label_keyword candidate allowed = false then candidate
    else scanCandidates allowed rest

/-- clean_table_dicts.infer_value_from_adjacent: scan right in the same row,
then downward in the same column (skipping rows too short to have that
column), for the first non-empty non-label cell. -/
def infer_value_from_adjacent (rows : List (List Text)) (row_idx col_idx : Nat)
    (allowed : Option (List Text)) : Text :=
  let row := rows.getD row_idx []
  let right := scanCandidates allowed (row.drop (col_idx + 1))
  if right ≠ [] then right
  else scanCandidates allowed ((rows.drop (row_idx + 1)).filterMap (fun rw => rw.get? col_idx))

/-- A cleaned record: an association list from canonical field name to value
(a Python dict with a fixed key set). -/
abbrev Record := List (String × Text)

/-- Dictionary lookup (keys are unique in every record built here). -/
def getField : Record → String → Text
  | [], _ => []
  | (k, v) :: rest, f => if k = f then v else getField rest f

/-- Dictionary update of one key, leaving the key order unchanged. -/
def setField : Record → String → Text → Record
  | [], _, _ => []
  | (k, v) :: rest, f, w => (if k = f then (k, w) else (k, v)) :: setField rest f w

/-- Python `a or b` on strings. -/
def pyOr (a b : Text) : Text := if a = [] then b else a

/-- The body of the field loop of clean_table for one (field, keywords) pair:
returns the value to write, or none when this field does not resolve at this
cell (lines 175-197 of clean_table_dicts.py). -/
def attemptField (all : List (List Text)) (r c : Nat) (text : Text)
    (field : String) (keywords : List Text) : Option Text :=
  let matched := match_field text keywords
  if matched = [] then none
  else
    let v0 := (extract_inline_value text matched).getD []
    let value := if v0 = [] then infer_value_from_adjacent all r c (some keywords) else v0
    if field = "服从分配" then
      let checkbox := interpret_checkbox text
      if checkbox ≠ [] then some checkbox
      else
        let checkbox2 := infer_value_from_adjacent all r c none
        if checkbox2 ≠ [] then some (pyOr (interpret_checkbox checkbox2) checkbox2)
        else if value ≠ [] then some (pyOr (interpret_checkbox value) value)
        else none
    else if value ≠ [] then some value else none

/-- The field loop of clean_table: skip resolved fields; the first field that
resolves claims the cell and the loop breaks. -/
def processFields (all : List (List Text)) (r c : Nat) (text : Text) :
    List (String × List Text) → Record → Record
  | [], rec => rec
  | (field, keywords) :: restFields, rec =>
    if getField rec field ≠ [] then processFields all r c text restFields rec
    else
      match attemptField all r c text field keywords with
      | some w => setField rec field w
      | none => processFields all r c text restFields rec

/-- The cell loop of clean_table over one row: empty cells are skipped but
still advance the column index. -/
def processRow (all : List (List Text)) (r : Nat) : Nat → List Text → Record → Record
  | _, [], rec => rec
  | c, text :: rest, rec =>
    processRow all r (c + 1) rest
      (if text = [] then rec else processFields all r c text FIELD_KEYWORDS rec)

/-- The row loop of clean_table. -/
def processTable (all : List (List Text)) : Nat → List (List Text) → Record → Record
  | _, [], rec => rec
  | r, row :: rest, rec => processTable all (r + 1) rest (processRow all r 0 row rec)

/-- The fresh record: every canonical field mapped to the empty string. -/
def initRecord : Record := FIELD_KEYWORDS.map (fun p => (p.1, ([] : Text)))

/-- clean_table_dicts.clean_table, applied to the cells of a normalized
table: normalize every cell, then run the row-major cleaning loop. -/
def clean_table (rows : List (List Text)) : Record :=
  let all := rows.map (fun row => row.map normalize_text)
  processTable all 0 all initRecord

/-- The value-derivation step of clean_table at one cell (lines 175-182):
inline extraction from the matched keyword, else adjacent-cell inference
with the field's own keywords excluded. -/
def derive_at (all : List (List Text)) (r c : Nat) (keywords : List Text) : Text :=
  let text := (all.getD r []).getD c []
  let matched := match_field text keywords
  let v0 := (extract_inline_value text matched).getD []
  if v0 = [] then infer_value_from_adjacent all r c (some keywords) else v0

/-- A cell of a reader table block: its flattened text and the texts of its
paragraphs (extract_tables.py input). -/
structure DocCell where
  text : Text
  paragraphs : List Text
  deriving DecidableEq

/-- extract_tables.normalized_cell_text. -/
def normalized_cell_text (cell : DocCell) : Text :=
  let t :=
    if cell.text = [] then
      List.intercalate (toT "\n") (cell.paragraphs.filter (fun p => p ≠ []))
    else cell.text
  pyStrip (t.map (fun ch => if ch = '\n' then ' ' else ch))

/-- extract_tables.trim_trailing_empty: pop trailing empty cells. -/
def trim_trailing_empty (cells : List Text) : List Text :=
  ((cells.reverse.dropWhile (fun c => c.isEmpty)).reverse)

/-- A reader table block (the rows of cells produced by read_docx.build_table). -/
structure TableBlock where
  rows : List (List DocCell)
  deriving DecidableEq

/-- A normalized table (extract_tables.normalize_table output). -/
structure NormalizedTable where
  row_count : Nat
  column_count : Nat
  cells : List (List Text)
  deriving DecidableEq

/-- extract_tables.normalize_table: per-row cell normalization, trailing-empty
trimming, and the running maximum of the resulting row lengths. -/
def normalize_table (block : TableBlock) : NormalizedTable :=
  let rows := block.rows.map (fun row => trim_trailing_empty (row.map normalized_cell_text))
  { row_count := rows.length
    column_count := rows.foldl (fun m r => max m r.length) 0
    cells := rows }

/-! ## Record lemmas -/

/-- The ordered key list of a record. -/
def keysOf (r : Record) : List String := r.map Prod.fst

theorem getField_setField_of_ne (r : Record) {f g : String} (h : f ≠ g) (v : Text) :
    getField (setField r g v) f = getField r f := by
  induction r with
  | nil => rfl
  | cons p rest ih =>
    obtain ⟨k, w⟩ := p
    show getField ((if k = g then (k, v) else (k, w)) :: setField rest g v) f =
      getField ((k, w) :: rest) f
    by_cases hk : k = g
    · have hkf : ¬ k = f := by rw [hk]; exact fun hh => h hh.symm
      rw [if_pos hk]
      show (if k = f then v else getField (setField rest g v) f) =
        (if k = f then w else getField rest f)
      rw [if_neg hkf, if_neg hkf]
      exact ih
    · rw [if_neg hk]
      show (if k = f then w else getField (setField rest g v) f) =
        (if k = f then w else getField rest f)
      by_cases hkf : k = f
      · rw [if_pos hkf, if_pos hkf]
      · rw [if_neg hkf, if_neg hkf]
        exact ih

theorem getField_setField_self (r : Record) (f : String) (v : Text) :
    getField (setField r f v) f = v ∨ getField (setField r f v) f = [] := by
  induction r with
  | nil => right; rfl
  | cons p rest ih =>
    obtain ⟨k, w⟩ := p
    show getField ((if k = f then (k, v) else (k, w)) :: setField rest f v) f = v ∨
      getField ((if k = f then (k, v) else (k, w)) :: setField rest f v) f = []
    by_cases hk : k = f
    · left
      rw [if_pos hk]
      show (if k = f then v else getField (setField rest f v) f) = v
      rw [if_pos hk]
    · rw [if_neg hk]
      show (if k = f then w else getField (setField rest f v) f) = v ∨
        (if k = f then w else getField (setField rest f v) f) = []
      rw [if_neg hk]
      exact ih

theorem keysOf_setField (r : Record) (f : String) (v : Text) :
    keysOf (setField r f v) = keysOf r := by
  induction r with
  | nil => rfl
  | cons p rest ih =>
    obtain ⟨k, w⟩ := p
    show keysOf ((if k = f then (k, v) else (k, w)) :: setField rest f v) =
      keysOf ((k, w) :: rest)
    by_cases hk : k = f
    · rw [if_pos hk]
      show k :: keysOf (setField rest f v) = k :: keysOf rest
      rw [ih]
    · rw [if_neg hk]
      show k :: keysOf (setField rest f v) = k :: keysOf rest
      rw [ih]

theorem pyOr_ne (a b : Text) (hb : b ≠ []) : pyOr a b ≠ [] := by
  unfold pyOr
  split
  · exact hb
  · next h => exact h

/-! ## Loop unfolding and invariants of the field cleaner -/

theorem processFields_cons (all : List (List Text)) (r c : Nat) (text : Text)
    (field : String) (kws : List Text) (fl : List (String × List Text)) (rec : Record) :
    processFields all r c text ((field, kws) :: fl) rec =
      if getField rec field ≠ [] then processFields all r c text fl rec
      else
        match attemptField all r c text field kws with
        | some w => setField rec field w
        | none => processFields all r c text fl rec := rfl

/-- Every value the field loop actually writes is non-empty. -/
theorem attemptField_some_ne (all : List (List Text)) (r c : Nat) (text : Text)
    (field : String) (kws : List Text) (w : Text)
    (h : attemptField all r c text field kws = some w) : w ≠ [] := by
  simp only [attemptField] at h
  repeat' split at h
  all_goals first
    | exact Option.noConfusion h
    | (injection h with h; subst h; assumption)
    | (injection h with h; subst h; exact pyOr_ne _ _ (by assumption))

/-- Once a field is non-empty, the field loop never changes it. -/
theorem processFields_persist (all : List (List Text)) (r c : Nat) (text : Text)
    (fl : List (String × List Text)) (rec : Record) {f : String}
    (h : getField rec f ≠ []) :
    getField (processFields all r c text fl rec) f = getField rec f := by
  induction fl with
  | nil => rfl
  | cons p fl ih =>
    obtain ⟨field, kws⟩ := p
    rw [processFields_cons]
    by_cases hres : getField rec field ≠ []
    · rw [if_pos hres]; exact ih
    · rw [if_neg hres]
      push_neg at hres
      have hne : f ≠ field := fun he => h (he ▸ hres)
      cases hA : attemptField all r c text field kws with
      | some w => exact getField_setField_of_ne rec hne w
      | none => exact ih

/-- Any change the field loop makes to a field is a first write of a
non-empty value. -/
theorem processFields_change (all : List (List Text)) (r c : Nat) (text : Text)
    (fl : List (String × List Text)) (rec : Record) {f : String}
    (h : getField (processFields all r c text fl rec) f ≠ getField rec f) :
    getField rec f = [] ∧ getField (processFields all r c text fl rec) f ≠ [] := by
  induction fl with
  | nil => exact absurd rfl h
  | cons p fl ih =>
    obtain ⟨field, kws⟩ := p
    rw [processFields_cons] at h ⊢
    by_cases hres : getField rec field ≠ []
    · rw [if_pos hres] at h ⊢; exact ih h
    · rw [if_neg hres] at h ⊢
      push_neg at hres
      cases hA : attemptField all r c text field kws with
      | some w =>
        rw [hA] at h
        by_cases hne : f = field
        · subst hne
          exact ⟨hres, fun hz => h (by rw [hz, hres])⟩
        · exact absurd (getField_setField_of_ne rec hne w) h
      | none => rw [hA] at h; exact ih h

theorem keysOf_processFields (all : List (List Text)) (r c : Nat) (text : Text)
    (fl : List (String × List Text)) (rec : Record) :
    keysOf (processFields all r c text fl rec) = keysOf rec := by
  induction fl with
  | nil => rfl
  | cons p fl ih =>
    obtain ⟨field, kws⟩ := p
    rw [processFields_cons]
    by_cases hres : getField rec field ≠ []
    · rw [if_pos hres]; exact ih
    · rw [if_neg hres]
      cases hA : attemptField all r c text field kws with
      | some w => exact keysOf_setField rec field w
      | none => exact ih

theorem processRow_cons (all : List (List Text)) (r c : Nat) (text : Text)
    (rest : List Text) (rec : Record) :
    processRow all r c (text :: rest) rec =
      processRow all r (c + 1) rest
        (if text = [] then rec else processFields all r c text FIELD_KEYWORDS rec) := rfl

theorem processRow_persist (all : List (List Text)) (r : Nat) (cells : List Text) :
    ∀ (c : Nat) (rec : Record) {f : String}, getField rec f ≠ [] →
      getField (processRow all r c cells rec) f = getField rec f := by
  induction cells with
  | nil => intro c rec f h; rfl
  | cons text rest ih =>
    intro c rec f h
    rw [processRow_cons]
    have h2 : getField (if text = [] then rec
        else processFields all r c text FIELD_KEYWORDS rec) f = getField rec f := by
      by_cases ht : text = []
      · rw [if_pos ht]
      · rw [if_neg ht]; exact processFields_persist all r c text FIELD_KEYWORDS rec h
    rw [ih (c + 1) _ (by rw [h2]; exact h), h2]

theorem processRow_change (all : List (List Text)) (r : Nat) (cells : List Text) :
    ∀ (c : Nat) (rec : Record) {f : String},
      getField (processRow all r c cells rec) f ≠ getField rec f →
      getField rec f = [] ∧ getField (processRow all r c cells rec) f ≠ [] := by
  induction cells with
  | nil => intro c rec f h; exact absurd rfl h
  | cons text rest ih =>
    intro c rec f h
    rw [processRow_cons] at h ⊢
    by_cases hmid : getField (if text = [] then rec
        else processFields all r c text FIELD_KEYWORDS rec) f = getField rec f
    · have h' := h
      rw [show getField rec f = getField (if text = [] then rec
          else processFields all r c text FIELD_KEYWORDS rec) f from hmid.symm] at h'
      obtain ⟨h1, h2⟩ := ih (c + 1) _ h'
      exact ⟨by rw [← hmid]; exact h1, h2⟩
    · by_cases ht : text = []
      · rw [if_pos ht] at hmid; exact absurd rfl hmid
      · rw [if_neg ht] at hmid h ⊢
        obtain ⟨h1, h2⟩ := processFields_change all r c text FIELD_KEYWORDS rec hmid
        refine ⟨h1, ?_⟩
        rw [processRow_persist all r rest (c + 1) _ h2]
        exact h2

theorem keysOf_processRow (all : List (List Text)) (r : Nat) (cells : List Text) :
    ∀ (c : Nat) (rec : Record),
      keysOf (processRow all r c cells rec) = keysOf rec := by
  induction cells with
  | nil => intro c rec; rfl
  | cons text rest ih =>
    intro c rec
    rw [processRow_cons, ih]
    by_cases ht : text = []
    · rw [if_pos ht]
    · rw [if_neg ht]; exact keysOf_processFields all r c text FIELD_KEYWORDS rec

theorem processTable_cons (all : List (List Text)) (r : Nat) (row : List Text)
    (rest : List (List Text)) (rec : Record) :
    processTable all r (row :: rest) rec =
      processTable all (r + 1) rest (processRow all r 0 row rec) := rfl

theorem processTable_persist (all : List (List Text)) (r : Nat) (rows : List (List Text)) :
    ∀ {rec : Record} {f : String}, getField rec f ≠ [] →
      getField (processTable all r rows rec) f = getField rec f := by
  induction rows generalizing r with
  | nil => intro rec f h; rfl
  | cons row rest ih =>
    intro rec f h
    rw [processTable_cons]
    have h2 := processRow_persist all r row 0 rec h
    rw [ih (r + 1) (by rw [h2]; exact h), h2]

theorem processTable_change (all : List (List Text)) (r : Nat) (rows : List (List Text)) :
    ∀ {rec : Record} {f : String},
      getField (processTable all r rows rec) f ≠ getField rec f →
      getField rec f = [] ∧ getField (processTable all r rows rec) f ≠ [] := by
  induction rows generalizing r with
  | nil => intro rec f h; exact absurd rfl h
  | cons row rest ih =>
    intro rec f h
    rw [processTable_cons] at h ⊢
    by_cases hmid : getField (processRow all r 0 row rec) f = getField rec f
    · have h' := h
      rw [show getField rec f = getField (processRow all r 0 row rec) f from hmid.symm] at h'
      obtain ⟨h1, h2⟩ := ih (r + 1) h'
      exact ⟨by rw [← hmid]; exact h1, h2⟩
    · obtain ⟨h1, h2⟩ := processRow_change all r row 0 rec hmid
      refine ⟨h1, ?_⟩
      rw [processTable_persist all (r + 1) rest h2]
      exact h2

theorem keysOf_processTable (all : List (List Text)) (r : Nat) (rows : List (List Text)) :
    ∀ (rec : Record), keysOf (processTable all r rows rec) = keysOf rec := by
  induction rows generalizing r with
  | nil => intro rec; rfl
  | cons row rest ih =>
    intro rec
    rw [processTable_cons, ih, keysOf_processRow]

theorem processTable_append (all : List (List Text)) (rows₁ rows₂ : List (List Text)) :
    ∀ (r : Nat) (rec : Record),
      processTable all r (rows₁ ++ rows₂) rec =
        processTable all (r + rows₁.length) rows₂ (processTable all r rows₁ rec) := by
  induction rows₁ with
  | nil => intro r rec; simp [processTable]
  | cons row rows ih =>
    intro r rec
    simp only [List.cons_append, processTable_cons, List.length_cons]
    rw [ih]
    have e : r + 1 + rows.length = r + (rows.length + 1) := by omega
    rw [e]

/-! ## Claim theorems: cleaner invariants and concrete scenarios -/

/-- C8: for every table (the cells of a Normalized Table), the key list of
the cleaned record is exactly the canonical field list of the Field Keyword
Table — every canonical field is present and no other key appears. -/
theorem clean_table_keys_canonical (rows : List (List Text)) :
    keysOf (clean_table rows) = FIELD_KEYWORDS.map Prod.fst := by
  show keysOf (processTable (rows.map (fun row => row.map normalize_text)) 0
    (rows.map (fun row => row.map normalize_text)) initRecord) = FIELD_KEYWORDS.map Prod.fst
  rw [keysOf_processTable]
  rfl

/-- C7: the Field Cleaner is total in this model (it is a total function
producing a full sixteen-entry record for every input, sparse or ragged),
and the empty table yields the record mapping every canonical field to the
empty string. -/
theorem clean_table_total_empty :
    clean_table [] = FIELD_KEYWORDS.map (fun p => (p.1, ([] : Text))) ∧
    ∀ rows : List (List Text), (clean_table rows).length = FIELD_KEYWORDS.length := by
  constructor
  · rfl
  · intro rows
    have h := clean_table_keys_canonical rows
    have h1 : (keysOf (clean_table rows)).length = (clean_table rows).length :=
      List.length_map _ _
    rw [← h1, h]
    exact List.length_map _ _

/-- C9: during one run of the cleaner each field is written at most once
with a non-empty value: (1) once a field is non-empty it survives any
further processing unchanged, (2) any change made by processing is a first
write (the field was empty before and is non-empty after), and (3) every
value the per-cell field loop produces for writing is non-empty. -/
theorem clean_table_write_once :
    (∀ (all : List (List Text)) (r : Nat) (rows : List (List Text)) (rec : Record)
        (f : String), getField rec f ≠ [] →
        getField (processTable all r rows rec) f = getField rec f) ∧
    (∀ (all : List (List Text)) (r : Nat) (rows : List (List Text)) (rec : Record)
        (f : String), getField (processTable all r rows rec) f ≠ getField rec f →
        getField rec f = [] ∧ getField (processTable all r rows rec) f ≠ []) ∧
    (∀ (all : List (List Text)) (r c : Nat) (text : Text) (field : String)
        (kws : List Text) (w : Text),
        attemptField all r c text field kws = some w → w ≠ []) :=
  ⟨fun all r rows _ _ h => processTable_persist all r rows h,
   fun all r rows _ _ h => processTable_change all r rows h,
   fun all r c text field kws w h => attemptField_some_ne all r c text field kws w h⟩

/-- Witness for C9 at a concrete record and table. -/
theorem clean_table_write_once_witness :
    getField (processTable [[toT "姓名", toT "张三"]] 0 [[toT "姓名", toT "张三"]]
      [("姓名", toT "李四")]) "姓名" = getField [("姓名", toT "李四")] "姓名" :=
  clean_table_write_once.1 [[toT "姓名", toT "张三"]] 0 [[toT "姓名", toT "张三"]]
    [("姓名", toT "李四")] "姓名" (by decide)

/-- C3: on the single-row table 姓名/张三/性别/男 the cleaner resolves 姓名
to 张三 (adjacent-cell inference must not pick the label 性别) and 性别 to
男. -/
theorem clean_table_adjacency_exclusion :
    getField (clean_table [[toT "姓名", toT "张三", toT "性别", toT "男"]]) "姓名" = toT "张三" ∧
    getField (clean_table [[toT "姓名", toT "张三", toT "性别", toT "男"]]) "性别" = toT "男" := by
  constructor
  · decide
  · decide

/-- C10: interpret_checkbox answers 否 only when the text contains an
unchecked glyph; the bare declined literals 否/不同意/不接受 yield the empty
string from checkbox interpretation, and in the pipeline a declined answer
cell is recorded as the raw cell text. -/
theorem interpret_checkbox_decline_requires_glyph :
    (∀ t : Text, (UNCHECKED_CHARS.any fun ch => t.contains ch) = false →
        interpret_checkbox t ≠ toT "否") ∧
    interpret_checkbox (toT "否") = [] ∧
    interpret_checkbox (toT "不同意") = [] ∧
    interpret_checkbox (toT "不接受") = [] ∧
    getField (clean_table [[toT "服从分配", toT "不同意"]]) "服从分配" = toT "不同意" := by
  refine ⟨?_, by decide, by decide, by decide, by decide⟩
  intro t h
  unfold interpret_checkbox
  split
  · decide
  · split
    · next hc => rw [h] at hc; cases hc
    · decide

/-- Witness for C10 on a text with no unchecked glyph. -/
theorem interpret_checkbox_decline_requires_glyph_witness :
    interpret_checkbox (toT "张三") ≠ toT "否" :=
  interpret_checkbox_decline_requires_glyph.1 (toT "张三") (by decide)

/-- C1 counterexample: in the table [[姓名, 政治面貌], [班级, 姓名：张三]]
both the cell (0,0) and the cell (1,1) satisfy the keyword match for field
姓名, the cell visited first in row-major order (0,0) derives the empty
value (both its neighbors look like labels), yet the final value of 姓名 is
张三, derived from the later-visited matching cell — so a later-visited
matching cell does determine the value, contradicting the claim. -/
theorem clean_table_first_match_counterexample :
    match_field (toT "姓名") [toT "姓名"] ≠ [] ∧
    match_field (toT "姓名：张三") [toT "姓名"] ≠ [] ∧
    derive_at ([[toT "姓名", toT "政治面貌"], [toT "班级", toT "姓名：张三"]].map
      (fun row => row.map normalize_text)) 0 0 [toT "姓名"] = [] ∧
    getField (clean_table [[toT "姓名", toT "政治面貌"], [toT "班级", toT "姓名：张三"]])
      "姓名" = toT "张三" ∧
    getField (clean_table [[toT "姓名", toT "政治面貌"], [toT "班级", toT "姓名：张三"]])
      "姓名" ≠ derive_at ([[toT "姓名", toT "政治面貌"], [toT "班级", toT "姓名：张三"]].map
        (fun row => row.map normalize_text)) 0 0 [toT "姓名"] := by
  refine ⟨by decide, by decide, by decide, by decide, by decide⟩

/-- C1 amended: the field's value is determined by the first cell whose
resolution actually succeeds (yields a non-empty value) in row-major order:
once the rows processed so far have resolved a field, processing further
rows never changes it; a matching cell whose derivation is empty leaves the
field open for later matching cells, as on the counterexample table where
the later cell resolves 姓名 to 张三. -/
theorem clean_table_first_success_wins :
    (∀ (all : List (List Text)) (r : Nat) (rows₁ rows₂ : List (List Text))
        (rec : Record) (f : String),
        getField (processTable all r rows₁ rec) f ≠ [] →
        getField (processTable all r (rows₁ ++ rows₂) rec) f =
          getField (processTable all r rows₁ rec) f) ∧
    getField (clean_table [[toT "姓名", toT "政治面貌"], [toT "班级", toT "姓名：张三"]])
      "姓名" = toT "张三" := by
  refine ⟨?_, by decide⟩
  intro all r rows₁ rows₂ rec f h
  rw [processTable_append]
  exact processTable_persist all (r + rows₁.length) rows₂ h

/-- Witness for the amended C1 on a concrete split of a table. -/
theorem clean_table_first_success_wins_witness :
    getField (processTable [[toT "姓名", toT "张三"]] 0
      ([[toT "姓名", toT "张三"]] ++ [[toT "性别", toT "男"]]) initRecord) "姓名" =
    getField (processTable [[toT "姓名", toT "张三"]] 0
      [[toT "姓名", toT "张三"]] initRecord) "姓名" :=
  clean_table_first_success_wins.1 [[toT "姓名", toT "张三"]] 0
    [[toT "姓名", toT "张三"]] [[toT "性别", toT "男"]] initRecord "姓名" (by decide)

/-! ## Glyph lemmas and the checkbox claims -/

theorem mem_of_mem_pyStrip {c : Char} {l : Text} (h : c ∈ pyStrip l) : c ∈ l := by
  unfold pyStrip at h
  rw [List.mem_reverse] at h
  have h2 := (List.dropWhile_sublist _).mem h
  rw [List.mem_reverse] at h2
  exact (List.dropWhile_sublist _).mem h2

theorem glyphScan_none_of (l : Text)
    (h : ∀ c ∈ l, c ∉ CHECKED_CHARS ∧ c ∉ UNCHECKED_CHARS) : glyphScan l = none := by
  induction l with
  | nil => rfl
  | cons c rest ih =>
    have hc := h c (List.mem_cons_self c rest)
    show (if c ∈ CHECKED_CHARS then some true
      else if c ∈ UNCHECKED_CHARS then some false else glyphScan rest) = none
    rw [if_neg hc.1, if_neg hc.2]
    exact ih fun x hx => h x (List.mem_cons_of_mem c hx)

theorem glyphScan_none_mem (l : Text) (h : glyphScan l = none) :
    ∀ c ∈ l, c ∉ CHECKED_CHARS ∧ c ∉ UNCHECKED_CHARS := by
  induction l with
  | nil => intro c hc; cases hc
  | cons a rest ih =>
    intro c hc
    have hstep : (if a ∈ CHECKED_CHARS then some true
        else if a ∈ UNCHECKED_CHARS then some false else glyphScan rest) = none := h
    by_cases h1 : a ∈ CHECKED_CHARS
    · rw [if_pos h1] at hstep; cases hstep
    · rw [if_neg h1] at hstep
      by_cases h2 : a ∈ UNCHECKED_CHARS
      · rw [if_pos h2] at hstep; cases hstep
      · rw [if_neg h2] at hstep
        rcases List.mem_cons.mp hc with rfl | hc2
        · exact ⟨h1, h2⟩
        · exact ih hstep c hc2

theorem filled_any_false (l : Text) (h : ∀ c ∈ l, c ∉ CHECKED_CHARS) :
    (filledMarkers.any fun ch => l.contains ch) = false := by
  apply List.any_eq_false.mpr
  intro ch hch hcont
  have hsub : ∀ x ∈ filledMarkers, x ∈ CHECKED_CHARS := by decide
  exact h ch (List.elem_iff.mp hcont) (hsub ch hch)

/-- C2: checkbox round-trip. A cell holding exactly one checked glyph
interprets to 是; exactly one unchecked glyph interprets to 否; a text with
no glyph from either set and no recognizable literal answer interprets to
the empty string. -/
theorem interpret_checkbox_round_trip :
    (∀ c ∈ CHECKED_CHARS, interpret_checkbox [c] = toT "是") ∧
    (∀ c ∈ UNCHECKED_CHARS, interpret_checkbox [c] = toT "否") ∧
    (∀ t : Text, (∀ c ∈ t, c ∉ CHECKED_CHARS ∧ c ∉ UNCHECKED_CHARS) →
      pyStrip t ∉ [toT "是", toT "同意", toT "接受", toT "否", toT "不同意", toT "不接受"] →
      interpret_checkbox t = []) := by
  refine ⟨by decide, by decide, ?_⟩
  intro t hg hl
  have hchk : is_checked_text t = false := by
    by_cases ht : t = []
    · simp [is_checked_text, ht]
    · simp only [is_checked_text, if_neg ht]
      have hsubt : ∀ c ∈ pyStrip t, c ∉ CHECKED_CHARS ∧ c ∉ UNCHECKED_CHARS :=
        fun c hc => hg c (mem_of_mem_pyStrip hc)
      rw [glyphScan_none_of _ hsubt]
      have h1 : ¬((pyStrip t).length ≤ 3 ∧ pyStrip t ∈ checkedLiterals) := by
        rintro ⟨-, hmem⟩
        simp only [checkedLiterals, List.mem_cons, List.not_mem_nil, or_false] at hmem
        rcases hmem with h | h | h | h | h | h | h
        · exact hl (by rw [h]; decide)
        · exact hl (by rw [h]; decide)
        · exact hl (by rw [h]; decide)
        · exact (hg '✔' (mem_of_mem_pyStrip (by rw [h]; decide))).1 (by decide)
        · exact (hg '☑' (mem_of_mem_pyStrip (by rw [h]; decide))).1 (by decide)
        · exact (hg '√' (mem_of_mem_pyStrip (by rw [h]; decide))).1 (by decide)
        · exact (hg '✓' (mem_of_mem_pyStrip (by rw [h]; decide))).1 (by decide)
      rw [if_neg h1]
      have h2 : ¬((pyStrip t).length ≤ 3 ∧ pyStrip t ∈ uncheckedLiterals) := by
        rintro ⟨-, hmem⟩
        simp only [uncheckedLiterals, List.mem_cons, List.not_mem_nil, or_false] at hmem
        rcases hmem with h | h | h <;> exact hl (by rw [h]; decide)
      rw [if_neg h2]
      by_cases h3 : (LABEL_KEYWORDS.any fun k => textInfix k (pyStrip t)) = true
      · rw [if_pos h3]
      · rw [if_neg h3]
        apply if_neg
        rintro ⟨-, -, hany⟩
        rw [filled_any_false _ (fun c hc => (hsubt c hc).1)] at hany
        cases hany
  have hun : (UNCHECKED_CHARS.any fun ch => t.contains ch) = false := by
    apply List.any_eq_false.mpr
    intro ch hch hcont
    exact (hg ch (List.elem_iff.mp hcont)).2 hch
  have e1 : interpret_checkbox t =
      (if UNCHECKED_CHARS.any (fun ch => t.contains ch) then toT "否" else []) := by
    unfold interpret_checkbox
    exact if_neg (fun hx => by rw [hchk] at hx; cases hx)
  rw [e1]
  exact if_neg (fun hx => by rw [hun] at hx; cases hx)

/-- Witness for C2: one checked glyph, one unchecked glyph, and a plain
name with neither glyph nor literal. -/
theorem interpret_checkbox_round_trip_witness :
    interpret_checkbox ['☑'] = toT "是" ∧ interpret_checkbox ['□'] = toT "否" ∧
    interpret_checkbox (toT "张三") = [] :=
  ⟨interpret_checkbox_round_trip.1 '☑' (by decide),
   interpret_checkbox_round_trip.2.1 '□' (by decide),
   interpret_checkbox_round_trip.2.2 (toT "张三") (by decide) (by decide)⟩

/-- C6 counterexample: the claim asks for a text that contains a
filled-marker character but no character of the primary checked or
unchecked glyph sets; no such text exists, because every filled marker
■●▣◆ is itself a member of CHECKED_CHARS. Concretely, the short
CJK-plus-marker text 人■ (the kind of text the tier targets) does contain
a primary checked glyph, and is_checked_text already answers checked on it
through the primary glyph scan alone (the variant without the tier agrees),
so the tier is not a distinct deciding rule. -/
theorem is_checked_text_filled_tier_counterexample :
    (filledMarkers.all fun ch => CHECKED_CHARS.contains ch) = true ∧
    ((filledMarkers.any fun ch => (toT "人■").contains ch) &&
      ((CHECKED_CHARS ++ UNCHECKED_CHARS).all fun ch => !((toT "人■").contains ch))) = false ∧
    is_checked_text (toT "人■") = true ∧
    is_checked_text_primary (toT "人■") = true := by
  refine ⟨by decide, by decide, by decide, by decide⟩

/-- C6 amended: the secondary filled-marker tier is subsumed by the primary
checked glyph set — every filled marker is a primary checked glyph, and
is_checked_text coincides with the variant from which the tier is removed,
so the tier never determines the result. -/
theorem is_checked_text_filled_tier_subsumed :
    (filledMarkers.all fun ch => CHECKED_CHARS.contains ch) = true ∧
    ∀ t : Text, is_checked_text t = is_checked_text_primary t := by
  refine ⟨by decide, ?_⟩
  intro t
  by_cases ht : t = []
  · simp [is_checked_text, is_checked_text_primary, ht]
  · simp only [is_checked_text, is_checked_text_primary, if_neg ht]
    cases hscan : glyphScan (pyStrip t) with
    | some b => rfl
    | none =>
      have hng := glyphScan_none_mem _ hscan
      by_cases h1 : (pyStrip t).length ≤ 3 ∧ pyStrip t ∈ checkedLiterals
      · rw [if_pos h1, if_pos h1]
      · rw [if_neg h1, if_neg h1]
        by_cases h2 : (pyStrip t).length ≤ 3 ∧ pyStrip t ∈ uncheckedLiterals
        · rw [if_pos h2, if_pos h2]
        · rw [if_neg h2, if_neg h2]
          by_cases h3 : (LABEL_KEYWORDS.any fun k => textInfix k (pyStrip t)) = true
          · rw [if_pos h3, if_pos h3]
          · rw [if_neg h3, if_neg h3]
            apply if_neg
            rintro ⟨-, -, hany⟩
            rw [filled_any_false _ (fun c hc => (hng c hc).1)] at hany
            cases hany

/-! ## Inline extraction lemmas and the remaining claims -/

theorem isPrefixOf_self_append (l1 l2 : List Char) : l1.isPrefixOf (l1 ++ l2) = true := by
  induction l1 with
  | nil => simp [List.isPrefixOf]
  | cons c rest ih => simp [List.isPrefixOf, ih]

theorem dropWhile_eq_drop_len (l : Text) (p : Char → Bool) :
    l.dropWhile p = l.drop (l.takeWhile p).length := by
  induction l with
  | nil => rfl
  | cons c rest ih =>
    by_cases h : p c
    · simp [List.dropWhile_cons, List.takeWhile_cons, h, ih]
    · simp [List.dropWhile_cons, List.takeWhile_cons, h]

theorem dropWhile_head_not (l : Text) (p : Char → Bool) (c : Char) (rest : Text)
    (h : l.dropWhile p = c :: rest) : p c = false := by
  induction l with
  | nil => cases h
  | cons a tl ih =>
    rw [List.dropWhile_cons] at h
    by_cases hp : p a
    · rw [if_pos hp] at h; exact ih h
    · rw [if_neg hp] at h
      injection h with h1 h2
      rw [← h1]
      exact Bool.eq_false_iff.mpr hp

theorem dropWhile_idem (l : Text) (p : Char → Bool) :
    (l.dropWhile p).dropWhile p = l.dropWhile p := by
  induction l with
  | nil => rfl
  | cons a tl ih =>
    by_cases hp : p a
    · rw [List.dropWhile_cons, if_pos hp]; exact ih
    · rw [List.dropWhile_cons, if_neg hp, List.dropWhile_cons, if_neg hp]

theorem takeWhile_all {l : Text} {p : Char → Bool} (h : ∀ c ∈ l, p c = true) :
    l.takeWhile p = l := by
  induction l with
  | nil => rfl
  | cons a tl ih =>
    rw [List.takeWhile_cons, if_pos (h a (List.mem_cons_self a tl))]
    rw [ih fun c hc => h c (List.mem_cons_of_mem a hc)]

theorem pyStrip_dropWhile (l : Text) : pyStrip (l.dropWhile pyIsSpace) = pyStrip l := by
  unfold pyStrip
  rw [dropWhile_idem]

theorem dropWhile_ne_of_pyStrip_ne (l : Text) (h : pyStrip l ≠ []) :
    l.dropWhile pyIsSpace ≠ [] := by
  intro hd
  apply h
  unfold pyStrip
  rw [hd]
  rfl

theorem tryBacktrack_found (rest3 : Text) (k : Nat) (c : Char) (tail : Text)
    (h : rest3.drop k = c :: tail) (hc : ¬ c = '\n') :
    tryBacktrack rest3 k = some ((rest3.drop k).takeWhile (fun ch => ch != '\n')) := by
  cases k with
  | zero =>
    have h0 : rest3 = c :: tail := by simpa using h
    subst h0
    simp [tryBacktrack, hc]
  | succ k =>
    simp only [tryBacktrack]
    rw [h]
    simp [hc]

theorem starDotPlusGroup_of (trail : Text) (h : trail.dropWhile pyIsSpace ≠ []) :
    starDotPlusGroup trail =
      some ((trail.dropWhile pyIsSpace).takeWhile (fun ch => ch != '\n')) := by
  unfold starDotPlusGroup
  obtain ⟨c, tail, hct⟩ : ∃ c tail, trail.dropWhile pyIsSpace = c :: tail := by
    cases hd : trail.dropWhile pyIsSpace with
    | nil => exact absurd hd h
    | cons a b => exact ⟨a, b, rfl⟩
  have hdl : trail.drop (trail.takeWhile pyIsSpace).length = trail.dropWhile pyIsSpace :=
    (dropWhile_eq_drop_len trail pyIsSpace).symm
  have hp : pyIsSpace c = false := dropWhile_head_not trail pyIsSpace c tail hct
  have hcn : ¬ c = '\n' := fun he => by rw [he] at hp; exact absurd hp (by decide)
  rw [tryBacktrack_found trail _ c tail (by rw [hdl, hct]) hcn, hdl]

theorem inlineMatchAt_colon (kw trail : Text) (col : Char) (hcol : col = ':' ∨ col = '：')
    (h : trail.dropWhile pyIsSpace ≠ []) :
    inlineMatchAt (kw ++ col :: trail) kw =
      some ((trail.dropWhile pyIsSpace).takeWhile (fun ch => ch != '\n')) := by
  unfold inlineMatchAt
  rw [if_pos (isPrefixOf_self_append kw (col :: trail)), List.drop_left]
  have hcs : pyIsSpace col = false := by rcases hcol with rfl | rfl <;> decide
  rw [List.dropWhile_cons, if_neg (fun hx => by rw [hcs] at hx; cases hx)]
  show (if col = ':' ∨ col = '：' then starDotPlusGroup trail else none) = _
  rw [if_pos hcol, starDotPlusGroup_of trail h]

theorem inlineSearch_head (t kw : Text) (g : Text) (h : inlineMatchAt t kw = some g) :
    inlineSearch kw t = some (pyStrip g) := by
  cases t with
  | nil => simp [inlineSearch, h]
  | cons a rest => simp [inlineSearch, h]

theorem extract_inline_at_head (kw trail : Text) (col : Char) (hcol : col = ':' ∨ col = '：')
    (h : trail.dropWhile pyIsSpace ≠ []) :
    extract_inline_value (kw ++ col :: trail) kw =
      some (pyStrip ((trail.dropWhile pyIsSpace).takeWhile (fun ch => ch != '\n'))) := by
  unfold extract_inline_value
  exact inlineSearch_head _ _ _ (inlineMatchAt_colon kw trail col hcol h)

theorem attemptField_none_of_noMatch (all : List (List Text)) (r c : Nat) (text : Text)
    (field : String) (kws : List Text) (h : match_field text kws = []) :
    attemptField all r c text field kws = none := by
  simp only [attemptField]
  rw [if_pos h]

theorem pf_cons_none (all : List (List Text)) (r c : Nat) (text : Text) (field : String)
    (kws : List Text) (fl : List (String × List Text)) (rec : Record)
    (h0 : getField rec field = [])
    (h1 : attemptField all r c text field kws = none) :
    processFields all r c text ((field, kws) :: fl) rec =
      processFields all r c text fl rec := by
  rw [processFields_cons, if_neg (fun hne => hne h0), h1]

theorem pf_cons_some (all : List (List Text)) (r c : Nat) (text : Text) (field : String)
    (kws : List Text) (fl : List (String × List Text)) (rec : Record) (w : Text)
    (h0 : getField rec field = [])
    (h1 : attemptField all r c text field kws = some w) :
    processFields all r c text ((field, kws) :: fl) rec = setField rec field w := by
  rw [processFields_cons, if_neg (fun hne => hne h0), h1]

theorem attemptField_inline (all : List (List Text)) (r c : Nat) (text : Text)
    (field : String) (kws : List Text) (mk v : Text)
    (h1 : match_field text kws = mk) (h2 : ¬ mk = [])
    (h3 : extract_inline_value text mk = some v) (h4 : ¬ v = [])
    (h5 : ¬ field = "服从分配") :
    attemptField all r c text field kws = some v := by
  simp only [attemptField]
  rw [h1, if_neg h2, h3, Option.getD_some, if_neg h4, if_neg h5, if_pos h4]

/-- C4: if a cell's text is the matched keyword immediately followed by a
half-width or full-width colon and non-empty trailing text, inline
extraction returns the trailing text trimmed; and on the pipeline the cell
学号：20230001 resolves field 学号 to 20230001 regardless of what any
adjacent cell contains (adjacent cells are not consulted). -/
theorem extract_inline_value_colon :
    (∀ kw trail : Text, pyStrip trail ≠ [] → '\n' ∉ trail →
      extract_inline_value (kw ++ ':' :: trail) kw = some (pyStrip trail) ∧
      extract_inline_value (kw ++ '：' :: trail) kw = some (pyStrip trail)) ∧
    (∀ x : Text,
      getField (clean_table [[toT "学号：20230001", x]]) "学号" = toT "20230001") := by
  constructor
  · intro kw trail hS hN
    have hd := dropWhile_ne_of_pyStrip_ne trail hS
    have htw : (trail.dropWhile pyIsSpace).takeWhile (fun ch => ch != '\n') =
        trail.dropWhile pyIsSpace := by
      apply takeWhile_all
      intro ch hc
      have : ch ∈ trail := (List.dropWhile_sublist _).mem hc
      exact bne_iff_ne.mpr (fun he => hN (he ▸ this))
    constructor
    · rw [extract_inline_at_head kw trail ':' (Or.inl rfl) hd, htw, pyStrip_dropWhile]
    · rw [extract_inline_at_head kw trail '：' (Or.inr rfl) hd, htw, pyStrip_dropWhile]
  · intro x
    have hpf : ∀ (all : List (List Text)) (r c : Nat),
        processFields all r c (toT "学号：20230001") FIELD_KEYWORDS initRecord =
          setField initRecord "学号" (toT "20230001") := by
      intro all r c
      simp only [FIELD_KEYWORDS]
      rw [pf_cons_none all r c (toT "学号：20230001") "姓名" [toT "姓名"] _ initRecord
            (by decide) (attemptField_none_of_noMatch all r c _ _ _ (by decide)),
          pf_cons_none all r c (toT "学号：20230001") "性别" [toT "性别"] _ initRecord
            (by decide) (attemptField_none_of_noMatch all r c _ _ _ (by decide)),
          pf_cons_none all r c (toT "学号：20230001") "出生年月" _ _ initRecord
            (by decide) (attemptField_none_of_noMatch all r c _ _ _ (by decide)),
          pf_cons_none all r c (toT "学号：20230001") "政治面貌" _ _ initRecord
            (by decide) (attemptField_none_of_noMatch all r c _ _ _ (by decide)),
          pf_cons_none all r c (toT "学号：20230001") "所在分院" _ _ initRecord
            (by decide) (attemptField_none_of_noMatch all r c _ _ _ (by decide)),
          pf_cons_none all r c (toT "学号：20230001") "班级" _ _ initRecord
            (by decide) (attemptField_none_of_noMatch all r c _ _ _ (by decide)),
          pf_cons_some all r c (toT "学号：20230001") "学号" [toT "学号"] _ initRecord
            (toT "20230001") (by decide)
            (attemptField_inline all r c _ _ _ (toT "学号") (toT "20230001")
              (by decide) (by decide) (by decide) (by decide) (by decide))]
    have hn0 : normalize_text (toT "学号：20230001") = toT "学号：20230001" := by decide
    simp only [clean_table, List.map_cons, List.map_nil, hn0]
    rw [processTable_cons]
    show getField (processRow [[toT "学号：20230001", normalize_text x]] 0 0
      [toT "学号：20230001", normalize_text x] initRecord) "学号" = toT "20230001"
    rw [processRow_cons, if_neg (show ¬ (toT "学号：20230001" = ([] : Text)) from by decide),
        hpf, processRow_cons]
    show getField (if normalize_text x = [] then setField initRecord "学号" (toT "20230001")
      else processFields [[toT "学号：20230001", normalize_text x]] 0 1 (normalize_text x)
        FIELD_KEYWORDS (setField initRecord "学号" (toT "20230001"))) "学号" = toT "20230001"
    have hrec1 : getField (setField initRecord "学号" (toT "20230001")) "学号" =
        toT "20230001" := by decide
    by_cases hx : normalize_text x = []
    · rw [if_pos hx]; exact hrec1
    · rw [if_neg hx,
        processFields_persist _ _ _ _ _ _ (by rw [hrec1]; decide)]
      exact hrec1

/-- Witness for C4 at the keyword 学号 with trailing text 20230001. -/
theorem extract_inline_value_colon_witness :
    extract_inline_value (toT "学号" ++ '：' :: toT "20230001") (toT "学号") =
      some (pyStrip (toT "20230001")) :=
  (extract_inline_value_colon.1 (toT "学号") (toT "20230001") (by decide) (by decide)).2

/-- C5 counterexample: a one-row reader table whose second cell is empty.
The un-trimmed normalized row has length 2 (matching the Reader's per-row
cell count), but normalize_table reports column_count 1 because it measures
the row length after trailing-empty trimming, not before. -/
theorem normalize_table_column_count_counterexample :
    (normalize_table ⟨[[⟨toT "A", []⟩, ⟨[], []⟩]]⟩).column_count = 1 ∧
    ([[(⟨toT "A", []⟩ : DocCell), ⟨[], []⟩]].map
      fun row => (row.map normalized_cell_text).length) = [2] ∧
    (normalize_table ⟨[[⟨toT "A", []⟩, ⟨[], []⟩]]⟩).column_count ≠ 2 := by
  refine ⟨by decide, by decide, by decide⟩

/-- C5 amended: column_count is the maximum row length after trailing-empty
trimming — the maximum length of the rows actually stored in the Normalized
Table's cells — which can be smaller than the Reader's per-row cell count. -/
theorem normalize_table_column_count_trimmed (block : TableBlock) :
    (normalize_table block).column_count =
      ((normalize_table block).cells.map List.length).foldl max 0 := by
  simp only [normalize_table]
  rw [List.foldl_map, List.foldl_map, List.foldl_map]
